import Mathlib

/-!
Verification of the discrete-distribution and spatial light-distribution core
of the pbrt-v3 fork (src/core/sampling.h, src/core/lightdistrib.cpp).

Machine floating-point values are modelled by exact rationals; where a claim
is specifically about IEEE-754 rounding, the rounding step is modelled
explicitly (see roundNearest below).
-/

namespace PbrtSpec

/-- The `Distribution1D` struct of core/sampling.h: piecewise-constant
function values, the normalised cdf and the function integral. -/
structure Distribution1D where
  func : List ℚ
  cdf : List ℚ
  funcInt : ℚ

/-- The raw (unnormalised) cdf built by the `Distribution1D` constructor loop:
`cdf[0] = 0` and `cdf[i] = cdf[i-1] + func[i-1] / n`. -/
def rawCdf (f : List ℚ) : List ℚ :=
  List.scanl (fun acc x => acc + x / (f.length : ℚ)) 0 f

/-- The `Distribution1D(const Float *f, int n)` constructor: build the raw
cdf, read off `funcInt = cdf[n]`, then either install the uniform fallback
`cdf[i] = i / n` (when `funcInt == 0`) or divide every cdf entry by
`funcInt`. -/
def mkDistribution1D (f : List ℚ) : Distribution1D :=
  if (rawCdf f).getD f.length 0 = 0 then
    { func := f
      cdf := (List.range (f.length + 1)).map (fun i => (i : ℚ) / (f.length : ℚ))
      funcInt := (rawCdf f).getD f.length 0 }
  else
    { func := f
      cdf := (rawCdf f).map (fun x => x / (rawCdf f).getD f.length 0)
      funcInt := (rawCdf f).getD f.length 0 }

/-- Model of `Distribution1D::Count()`. -/
def Distribution1D.Count (d : Distribution1D) : ℕ := d.func.length

/-- Model of `Distribution1D::DiscretePDF(int index)`: `func[index] / (funcInt * Count())`. -/
def Distribution1D.DiscretePDF (d : Distribution1D) (index : ℕ) : ℚ :=
  d.func.getD index 0 / (d.funcInt * (d.Count : ℚ))

/-- Modelled from the spec: `FindInterval` is declared in core/pbrt.h, which is
not among the provided sources.  Per the spec it binary-searches the largest
`off` with `cdf[off] <= u`; the result is clamped into `[0, size-2]` so that
`off` and `off+1` always index valid cdf entries.  This definition returns
that largest satisfying index directly (0 when none satisfies the predicate),
clamped to `size - 2`. -/
def findInterval (cdf : List ℚ) (u : ℚ) : ℕ :=
  min (((List.range cdf.length).filter (fun i => cdf.getD i 0 ≤ u)).foldl max 0)
    (cdf.length - 2)

/-- Model of `Distribution1D::SampleDiscrete` (ignoring the `uRemapped` output):
search the cdf for the sampled offset and report the pdf
`func[offset] / (funcInt * Count())` when `funcInt > 0`, and `0` otherwise.
Returns the pair (sampled index, reported pdf). -/
def Distribution1D.SampleDiscrete (d : Distribution1D) (u : ℚ) : ℕ × ℚ :=
  (findInterval d.cdf u,
    if 0 < d.funcInt then
      d.func.getD (findInterval d.cdf u) 0 / (d.funcInt * (d.Count : ℚ))
    else 0)

/-- The `SparseDistribution1D` struct: an inner `Distribution1D` over the kept
positive contributions, the sparse-to-dense index map, the dense-to-sparse
back map, the uniform floor and its per-index share. -/
structure SparseDistribution1D where
  inner : Distribution1D
  backMap : ℤ → Option ℕ
  sampleMap : List ℤ
  uniProb : ℚ
  uniProbSingle : ℚ
  nAll : ℕ

/-- The filtering loop of `createSparseDistribution1D`: keep the entries of
the contribution map with contribution `> 0`, in iteration order. -/
def keptEntries (contribMap : List (ℤ × ℚ)) : List (ℤ × ℚ) :=
  contribMap.filter (fun kv => 0 < kv.2)

/-- Model of `SparseDistribution1D::createSparseDistribution1D` composed with the
`SparseDistribution1D` constructor.  The C++ iterates an
`unordered_map<int, Float>`; that iteration sequence is modelled as a list of
key-value pairs.  Entries with contribution `> 0` are kept, in order; the back
map sends a kept key to its position in the kept sequence; `uniProb` is forced
to 1 when no entry is kept; `uniProbSingle = uniProb / nAll`. -/
def mkSparseDistribution1D (contribMap : List (ℤ × ℚ)) (uniProb : ℚ) (nAll : ℕ) :
    SparseDistribution1D :=
  { inner := mkDistribution1D ((keptEntries contribMap).map Prod.snd)
    backMap := fun k => ((keptEntries contribMap).map Prod.fst).findIdx? (fun x => x = k)
    sampleMap := (keptEntries contribMap).map Prod.fst
    uniProb := if (keptEntries contribMap).map Prod.snd = [] then 1 else uniProb
    uniProbSingle :=
      (if (keptEntries contribMap).map Prod.snd = [] then 1 else uniProb) / (nAll : ℚ)
    nAll := nAll }

/-- Model of `SparseDistribution1D::DiscretePDF(int index)`: start from the uniform
share `uniProbSingle`; when the index is a kept key, add the inner pdf at its
back-mapped position weighted by `1 - uniProb`. -/
def SparseDistribution1D.DiscretePDF (s : SparseDistribution1D) (index : ℤ) : ℚ :=
  match s.backMap index with
  | some j => s.uniProbSingle + Distribution1D.DiscretePDF s.inner j * (1 - s.uniProb)
  | none => s.uniProbSingle

/-- Model of `SparseDistribution1D::SampleContinuous`, which is `CHECK(false)`: the fatal
assertion is modelled as an `Except` error carrying the spec's error name. -/
def SparseDistribution1D.SampleContinuous (_ : SparseDistribution1D) (_ : ℚ) :
    Except String (ℚ × ℚ) :=
  Except.error "UNSUPPORTED_OPERATION"

/-- The `InterpolatedDistribution1D` struct: the base `Distribution1D` built
over the mixing weights, together with the children's `DiscretePDF` virtual
functions (the code only ever calls `distributions[i]->DiscretePDF`). -/
structure InterpolatedDistribution1D where
  base : Distribution1D
  childPdf : List (ℕ → ℚ)

/-- The `InterpolatedDistribution1D(const Float *f, const Distribution1D **distributions, int n)`
constructor: build the base `Distribution1D` over the weights and retain the
children. -/
def mkInterpolatedDistribution1D (f : List ℚ) (children : List (ℕ → ℚ)) :
    InterpolatedDistribution1D :=
  { base := mkDistribution1D f, childPdf := children }

/-- Model of `InterpolatedDistribution1D::DiscretePDF(int index)`: the loop
`for i in [0, func.size()): pdf += distributions[i]->DiscretePDF(index) * (cdf[i+1] - cdf[i])`. -/
def InterpolatedDistribution1D.DiscretePDF (d : InterpolatedDistribution1D) (index : ℕ) : ℚ :=
  ((List.range d.base.func.length).map
    (fun i => d.childPdf.getD i (fun _ => 0) index * (d.base.cdf.getD (i + 1) 0 - d.base.cdf.getD i 0))).sum

/-- Model of `InterpolatedDistribution1D::SampleContinuous`, which is `CHECK(false)`: modelled
as an `Except` error carrying the spec's error name. -/
def InterpolatedDistribution1D.SampleContinuous (_ : InterpolatedDistribution1D) (_ : ℚ) :
    Except String (ℚ × ℚ) :=
  Except.error "UNSUPPORTED_OPERATION"

/-- IEEE-754 round-to-nearest of the exact value `q` onto the grid of numbers
spaced `ulp` apart (sufficient for values inside one binade; ties, which do
not arise below, round upward). -/
def roundNearest (ulp : ℚ) (q : ℚ) : ℚ :=
  ((⌊q / ulp + 1 / 2⌋ : ℤ) : ℚ) * ulp

/-- The spacing of IEEE binary64 numbers in the binade ending at 1.0 (an ulp
of values just below 1.0 is 2 to the power -53). -/
def ulpBelowOne : ℚ := 1 / 2 ^ 53

/-- The value `FLT_MIN`, the smallest positive normalised IEEE binary32 value,
2 to the power -126 (exactly representable in binary64). -/
def fltMin : ℚ := 1 / 2 ^ 126

/-- The clamp in `InterpolatedDistribution1D::SampleDiscrete`:
`uSub = uSub >= 1.0 ? 1.0 - FLT_MIN : uSub;`.  The replacement value
`1.0 - FLT_MIN` is a binary64 subtraction, so the exact difference is rounded
to the nearest binary64 value. -/
def clampUSub (uSub : ℚ) : ℚ :=
  if 1 ≤ uSub then roundNearest ulpBelowOne (1 - fltMin) else uSub

/-- The packed voxel key of `SpatialLightDistribution::Lookup` and
`PhotonBasedVoxelLightDistribution::calcPackedPosAndHash`:
`(uint64_t(pi[0]) << 40) | (uint64_t(pi[1]) << 20) | pi[2]`, computed in
64-bit unsigned arithmetic. -/
def packVoxel (ix iy iz : ℕ) : ℕ :=
  (((ix <<< 40) ||| (iy <<< 20)) ||| iz) % 2 ^ 64

/-- The sentinel `invalidPackedPos = 0xffffffffffffffff`. -/
def invalidPackedPos : ℕ := 0xffffffffffffffff

/-- A stored photon record (core/lightdistrib.h `PointCloud::PhotonPoint`):
position, scalar carried radiance and the source light number
(`lightNum = -1` marks a photon whose ray missed the scene). -/
structure Photon where
  x : ℚ
  y : ℚ
  z : ℚ
  beta : ℚ
  lightNum : ℤ

/-- One `lightContrib[photon.lightNum] += photon.beta` step on the
association-list model of the `unordered_map<int, Float>` accumulator. -/
def addContrib (m : List (ℤ × ℚ)) (k : ℤ) (v : ℚ) : List (ℤ × ℚ) :=
  if m.any (fun kv => kv.1 = k) then
    m.map (fun kv => if kv.1 = k then (kv.1, kv.2 + v) else kv)
  else
    m ++ [(k, v)]

/-- The photons of a cluster that intersected the scene
(`if (photon.lightNum == -1) continue;`). -/
def clusterHits (cluster : List Photon) : List Photon :=
  cluster.filter (fun p => p.lightNum ≠ -1)

/-- A kept cluster record (`CdfCloud::Cdf`): centroid coordinates, the
cluster's sparse distribution and its photon-count weight. -/
structure CdfEntry where
  x : ℚ
  y : ℚ
  z : ℚ
  distr : SparseDistribution1D
  weight : ℕ

/-- The per-cluster body of
`PhotonBasedCdfKdTreeLightDistribution::buildCluster`: skip photons with
`lightNum == -1`, accumulate positions and per-light contributions and count
the rest; when `numPhotons > photonThreshold`, store the averaged centroid,
the `SparseDistribution1D` over the contributions with floor
`minContributionScale` over all `nLights` lights, and the photon count as
weight; otherwise drop the cluster. -/
def buildClusterEntry (cluster : List Photon) (photonThreshold : ℤ)
    (minContributionScale : ℚ) (nLights : ℕ) : Option CdfEntry :=
  if (((clusterHits cluster).length : ℤ)) > photonThreshold then
    some { x := ((clusterHits cluster).map Photon.x).sum / ((clusterHits cluster).length : ℚ)
           y := ((clusterHits cluster).map Photon.y).sum / ((clusterHits cluster).length : ℚ)
           z := ((clusterHits cluster).map Photon.z).sum / ((clusterHits cluster).length : ℚ)
           distr := mkSparseDistribution1D
             ((clusterHits cluster).foldl (fun m p => addContrib m p.lightNum p.beta) [])
             minContributionScale nLights
           weight := (clusterHits cluster).length }
  else
    none

/-- Truncation toward zero, the rounding used by the C `fmod`. -/
def truncQ (q : ℚ) : ℤ :=
  if 0 ≤ q then ⌊q⌋ else ⌈q⌉

/-- Model of `fmod(q, 1.0f)`: the remainder of `q` after removing the integral part
truncated toward zero. -/
def fmodOne (q : ℚ) : ℚ :=
  q - (truncQ q : ℚ)

/-- One axis pass of
`PhotonBasedVoxelLightDistribution::getInterpolatedDistribution` with
`offsetInVoxel = a` on axis `d`: every entry gathered so far steps one voxel
toward the sign of `a`; when the stepped coordinate is inside `[0, nv)` the
entry's influence `w` is replaced by `w * (1 - |a|)` and the neighbour is
appended with influence `w * |a|`; otherwise the entry is left unchanged. -/
def axisStep (d : Fin 3) (a : ℚ) (nv : ℤ) (st : List ((Fin 3 → ℤ) × ℚ)) :
    List ((Fin 3 → ℤ) × ℚ) :=
  let stepDir : ℤ := if 0 < a then 1 else -1
  let kept := st.map (fun p =>
    if 0 ≤ p.1 d + stepDir ∧ p.1 d + stepDir < nv then (p.1, p.2 * (1 - |a|)) else p)
  let pushed := st.filterMap (fun p =>
    if 0 ≤ p.1 d + stepDir ∧ p.1 d + stepDir < nv then
      some (Function.update p.1 d (p.1 d + stepDir), p.2 * |a|)
    else
      none)
  kept ++ pushed

/-- The `offsetInVoxel` of axis `i`:
`fmod(offset[i] / (1.0f / nVoxels[i]), 1.0f) - 0.5f`. -/
def offsetInVoxel (offset : Fin 3 → ℚ) (nVoxels : Fin 3 → ℤ) (i : Fin 3) : ℚ :=
  fmodOne (offset i / (1 / (nVoxels i : ℚ))) - 1 / 2

/-- One iteration of the axis loop `for (int i = 0; i < 3; ++i)` of
`getInterpolatedDistribution`: compute `offsetInVoxel` and skip the axis when
it is 0 (`continue`), otherwise run the axis pass. -/
def stepAxis (offset : Fin 3 → ℚ) (nVoxels : Fin 3 → ℤ)
    (st : List ((Fin 3 → ℤ) × ℚ)) (i : Fin 3) : List ((Fin 3 → ℤ) × ℚ) :=
  if offsetInVoxel offset nVoxels i = 0 then st
  else axisStep i (offsetInVoxel offset nVoxels i) (nVoxels i) st

/-- The voxel/influence lists built by `getInterpolatedDistribution`: start
from the looked-up voxel with influence 1 and run the axis pass for axes
0, 1, 2 in order. -/
def interpolationEntries (offset : Fin 3 → ℚ) (nVoxels : Fin 3 → ℤ)
    (voxelId : Fin 3 → ℤ) : List ((Fin 3 → ℤ) × ℚ) :=
  [(0 : Fin 3), 1, 2].foldl (stepAxis offset nVoxels) [(voxelId, 1)]

theorem length_rawCdf (f : List ℚ) : (rawCdf f).length = f.length + 1 := by
  simp [rawCdf, List.length_scanl]

theorem scanl_getD_zero (g : ℚ → ℚ → ℚ) (a : ℚ) (l : List ℚ) :
    (List.scanl g a l).getD 0 0 = a := by
  simp [List.getElem?_scanl_zero]

theorem scanl_getD_succ (g : ℚ → ℚ → ℚ) (a : ℚ) (l : List ℚ) (i : ℕ) (h : i < l.length) :
    (List.scanl g a l).getD (i + 1) 0 = g ((List.scanl g a l).getD i 0) (l.getD i 0) := by
  induction l generalizing a i with
  | nil => simp at h
  | cons x xs ih =>
    cases i with
    | zero =>
      rw [List.scanl_cons]
      simp only [List.singleton_append, List.getD_cons_succ, List.getD_cons_zero]
      exact scanl_getD_zero g (g a x) xs
    | succ j =>
      have hj : j < xs.length := by simpa using h
      rw [List.scanl_cons]
      simp only [List.singleton_append, List.getD_cons_succ]
      exact ih (g a x) j hj

theorem scanl_getD_length (g : ℚ → ℚ → ℚ) (a : ℚ) (l : List ℚ) :
    (List.scanl g a l).getD l.length 0 = List.foldl g a l := by
  induction l generalizing a with
  | nil => simp
  | cons x xs ih =>
    rw [List.scanl_cons]
    simp only [List.singleton_append, List.length_cons, List.getD_cons_succ, List.foldl_cons]
    exact ih (g a x)

theorem foldl_add_div (n : ℚ) (l : List ℚ) (c : ℚ) :
    List.foldl (fun acc x => acc + x / n) c l = c + (l.map (fun x => x / n)).sum := by
  induction l generalizing c with
  | nil => simp
  | cons x xs ih => simp only [List.foldl_cons, List.map_cons, List.sum_cons, ih]; ring

theorem sum_map_div (l : List ℚ) (n : ℚ) : (l.map (fun x => x / n)).sum = l.sum / n := by
  induction l with
  | nil => simp
  | cons x xs ih => simp only [List.map_cons, List.sum_cons, ih]; ring

theorem rawCdf_getD_zero (f : List ℚ) : (rawCdf f).getD 0 0 = 0 :=
  scanl_getD_zero _ 0 f

theorem rawCdf_getD_succ (f : List ℚ) (i : ℕ) (h : i < f.length) :
    (rawCdf f).getD (i + 1) 0 = (rawCdf f).getD i 0 + f.getD i 0 / (f.length : ℚ) :=
  scanl_getD_succ _ 0 f i h

theorem rawCdf_last (f : List ℚ) : (rawCdf f).getD f.length 0 = f.sum / (f.length : ℚ) := by
  rw [rawCdf, scanl_getD_length, foldl_add_div, sum_map_div, zero_add]

theorem getD_nonneg (f : List ℚ) (h : ∀ x ∈ f, 0 ≤ x) (i : ℕ) : 0 ≤ f.getD i 0 := by
  by_cases hi : i < f.length
  · rw [List.getD_eq_getElem?_getD, List.getElem?_eq_getElem hi]
    exact h _ (List.getElem_mem hi)
  · rw [List.getD_eq_getElem?_getD, List.getElem?_eq_none (by omega)]
    simp

theorem getD_map_div (l : List ℚ) (c : ℚ) (i : ℕ) (h : i < l.length) :
    (l.map (fun x => x / c)).getD i 0 = l.getD i 0 / c := by
  simp [List.getD_eq_getElem?_getD, List.getElem?_eq_getElem h]

theorem mkDistribution1D_funcInt (f : List ℚ) :
    (mkDistribution1D f).funcInt = (rawCdf f).getD f.length 0 := by
  unfold mkDistribution1D
  split <;> rfl

theorem mkDistribution1D_func (f : List ℚ) : (mkDistribution1D f).func = f := by
  unfold mkDistribution1D
  split <;> rfl

theorem mkDistribution1D_cdf_zero (f : List ℚ) (h : (rawCdf f).getD f.length 0 = 0) :
    (mkDistribution1D f).cdf =
      (List.range (f.length + 1)).map (fun i => (i : ℚ) / (f.length : ℚ)) := by
  unfold mkDistribution1D
  rw [if_pos h]

theorem mkDistribution1D_cdf_pos (f : List ℚ) (h : (rawCdf f).getD f.length 0 ≠ 0) :
    (mkDistribution1D f).cdf =
      (rawCdf f).map (fun x => x / (rawCdf f).getD f.length 0) := by
  unfold mkDistribution1D
  rw [if_neg h]

theorem rawCdf_mono_step (f : List ℚ) (hnn : ∀ x ∈ f, 0 ≤ x) (hn : 0 < f.length)
    (i : ℕ) (h : i < f.length) :
    (rawCdf f).getD i 0 ≤ (rawCdf f).getD (i + 1) 0 := by
  rw [rawCdf_getD_succ f i h]
  have h1 : 0 ≤ f.getD i 0 := getD_nonneg f hnn i
  have h2 : (0 : ℚ) < (f.length : ℚ) := by exact_mod_cast hn
  have : 0 ≤ f.getD i 0 / (f.length : ℚ) := div_nonneg h1 (le_of_lt h2)
  linarith

/-- C1: constructing a `Distribution1D` from `f[0..n)` with `n > 0` (function
values non-negative, as the data model requires) gives `cdf[0] = 0` and
`cdf[i] = cdf[i-1] + f[i-1]/n` before normalisation, sets `funcInt` to
`cdf[n]`, replaces the cdf by `i/n` when `funcInt = 0` and divides it by
`funcInt` otherwise; consequently, whenever `funcInt > 0` the final cdf has
`cdf[0] = 0`, `cdf[n] = 1` and is non-decreasing. -/
theorem distribution1D_cdf_construction (f : List ℚ) (hn : 0 < f.length)
    (hnn : ∀ x ∈ f, 0 ≤ x) :
    (rawCdf f).getD 0 0 = 0 ∧
    (∀ i < f.length,
      (rawCdf f).getD (i + 1) 0 = (rawCdf f).getD i 0 + f.getD i 0 / (f.length : ℚ)) ∧
    (mkDistribution1D f).funcInt = (rawCdf f).getD f.length 0 ∧
    ((mkDistribution1D f).funcInt = 0 →
      (mkDistribution1D f).cdf =
        (List.range (f.length + 1)).map (fun i => (i : ℚ) / (f.length : ℚ))) ∧
    ((mkDistribution1D f).funcInt ≠ 0 →
      (mkDistribution1D f).cdf =
        (rawCdf f).map (fun x => x / (mkDistribution1D f).funcInt)) ∧
    (0 < (mkDistribution1D f).funcInt →
      (mkDistribution1D f).cdf.getD 0 0 = 0 ∧
      (mkDistribution1D f).cdf.getD f.length 0 = 1 ∧
      ∀ i < f.length,
        (mkDistribution1D f).cdf.getD i 0 ≤ (mkDistribution1D f).cdf.getD (i + 1) 0) := by
  have hfi := mkDistribution1D_funcInt f
  refine ⟨rawCdf_getD_zero f, fun i hi => rawCdf_getD_succ f i hi, hfi, ?_, ?_, ?_⟩
  · intro h0
    exact mkDistribution1D_cdf_zero f (hfi ▸ h0)
  · intro h0
    rw [mkDistribution1D_cdf_pos f (hfi ▸ h0), hfi]
  · intro hpos
    have hne : (rawCdf f).getD f.length 0 ≠ 0 := by
      rw [← hfi]; exact ne_of_gt hpos
    have hcdf := mkDistribution1D_cdf_pos f hne
    have hlen : (rawCdf f).length = f.length + 1 := length_rawCdf f
    refine ⟨?_, ?_, ?_⟩
    · rw [hcdf, getD_map_div _ _ 0 (by omega), rawCdf_getD_zero, zero_div]
    · rw [hcdf, getD_map_div _ _ f.length (by omega), div_self hne]
    · intro i hi
      rw [hcdf, getD_map_div _ _ i (by omega), getD_map_div _ _ (i + 1) (by omega)]
      have hmono := rawCdf_mono_step f hnn hn i hi
      have hposr : (0 : ℚ) < (rawCdf f).getD f.length 0 := by rw [← hfi]; exact hpos
      exact (div_le_div_iff_of_pos_right hposr).mpr hmono

theorem mkSparse_kept_ne_nil (contribMap : List (ℤ × ℚ))
    (hne : ∃ kv ∈ contribMap, 0 < kv.2) :
    (keptEntries contribMap).map Prod.snd ≠ [] := by
  obtain ⟨kv, hmem, hpos⟩ := hne
  have hkv : kv ∈ keptEntries contribMap :=
    List.mem_filter.mpr ⟨hmem, by simpa using hpos⟩
  intro hnil
  rw [List.map_eq_nil_iff] at hnil
  rw [hnil] at hkv
  exact absurd hkv (List.not_mem_nil kv)

/-- C2 (amended): for a `SparseDistribution1D` built from a contribution map
with at least one positive entry, uniform floor `u` and total size `nAll`,
`DiscretePDF i` equals `u/nAll + (1-u) * inner.DiscretePDF (backMap i)` when
`i` is a kept nonzero entry and `u/nAll` otherwise.  (When no entry is
positive the constructor forces the floor to 1 instead.) -/
theorem sparse_discretePDF_formula (contribMap : List (ℤ × ℚ)) (u : ℚ) (nAll : ℕ)
    (hne : ∃ kv ∈ contribMap, 0 < kv.2) :
    (∀ i j, (mkSparseDistribution1D contribMap u nAll).backMap i = some j →
      SparseDistribution1D.DiscretePDF (mkSparseDistribution1D contribMap u nAll) i =
        u / (nAll : ℚ) +
          (1 - u) *
            Distribution1D.DiscretePDF (mkSparseDistribution1D contribMap u nAll).inner j) ∧
    (∀ i, (mkSparseDistribution1D contribMap u nAll).backMap i = none →
      SparseDistribution1D.DiscretePDF (mkSparseDistribution1D contribMap u nAll) i =
        u / (nAll : ℚ)) := by
  have hk := mkSparse_kept_ne_nil contribMap hne
  constructor
  · intro i j hj
    simp only [mkSparseDistribution1D] at hj
    simp only [SparseDistribution1D.DiscretePDF, mkSparseDistribution1D, hj, if_neg hk]
    ring
  · intro i hi
    simp only [mkSparseDistribution1D] at hi
    simp only [SparseDistribution1D.DiscretePDF, mkSparseDistribution1D, hi, if_neg hk]

/-- C2 counterexample: the claim's formula fails when every contribution is
filtered out.  For the map with the single entry `(0, 0)`, floor `u = 1/2`
and `nAll = 2`, the constructor forces the floor to 1 and `DiscretePDF 0`
is `1/2`, not `u/nAll = 1/4` as the claim states for a non-kept index. -/
theorem sparse_discretePDF_empty_counterexample :
    SparseDistribution1D.DiscretePDF (mkSparseDistribution1D [(0, 0)] (1 / 2) 2) 0 ≠
      1 / 2 / 2 := by
  have h0 : keptEntries [((0 : ℤ), (0 : ℚ))] = [] := by
    simp [keptEntries]
  simp only [SparseDistribution1D.DiscretePDF, mkSparseDistribution1D, h0]
  norm_num

/-- Witness for C2 at the spec's S4 inputs (map (2, 4), (5, 1), floor 1/5,
total size 10): the formula instantiates at kept index 2 (back-mapped to 0)
and at the non-kept index 0, and the resulting values are 33/50 = 0.66 and
1/50 = 0.02. -/
theorem sparse_discretePDF_formula_witness :
    SparseDistribution1D.DiscretePDF (mkSparseDistribution1D [(2, 4), (5, 1)] (1 / 5) 10) 2 =
        33 / 50 ∧
    SparseDistribution1D.DiscretePDF (mkSparseDistribution1D [(2, 4), (5, 1)] (1 / 5) 10) 0 =
        1 / 50 := by
  have hthm := sparse_discretePDF_formula [(2, 4), (5, 1)] (1 / 5) 10 ⟨(2, 4), by norm_num⟩
  have hkept : keptEntries [((2 : ℤ), (4 : ℚ)), (5, 1)] = [(2, 4), (5, 1)] := by
    simp [keptEntries]
  have hb2 : (mkSparseDistribution1D [(2, 4), (5, 1)] (1 / 5) 10).backMap 2 = some 0 := by
    simp [mkSparseDistribution1D, hkept, List.findIdx?]
  have hb0 : (mkSparseDistribution1D [(2, 4), (5, 1)] (1 / 5) 10).backMap 0 = none := by
    simp [mkSparseDistribution1D, hkept, List.findIdx?]
  have hpdf : Distribution1D.DiscretePDF
      (mkSparseDistribution1D [(2, 4), (5, 1)] (1 / 5) 10).inner 0 = 4 / 5 := by
    have hraw : (rawCdf [(4 : ℚ), 1]).getD 2 0 = 5 / 2 := by
      norm_num [rawCdf, List.scanl]
    have hin : (mkSparseDistribution1D [(2, 4), (5, 1)] (1 / 5) 10).inner =
        mkDistribution1D [4, 1] := by
      simp [mkSparseDistribution1D, hkept]
    rw [hin, Distribution1D.DiscretePDF, Distribution1D.Count, mkDistribution1D_func,
      mkDistribution1D_funcInt]
    simp only [List.getD_eq_getElem?_getD] at hraw
    norm_num [hraw]
  constructor
  · rw [hthm.1 2 0 hb2, hpdf]
    norm_num
  · rw [hthm.2 0 hb0]
    norm_num

theorem mkDistribution1D_cdf_diff (w : List ℚ) (hsum : w.sum ≠ 0) (j : ℕ)
    (hj : j < w.length) :
    (mkDistribution1D w).cdf.getD (j + 1) 0 - (mkDistribution1D w).cdf.getD j 0 =
      w.getD j 0 / w.sum := by
  have hn : w.length ≠ 0 := by
    intro h0
    apply hsum
    rw [List.eq_nil_of_length_eq_zero h0]
    rfl
  have hlenQ : ((w.length : ℚ)) ≠ 0 := Nat.cast_ne_zero.mpr hn
  have hraw : (rawCdf w).getD w.length 0 = w.sum / (w.length : ℚ) := rawCdf_last w
  have hfi : (rawCdf w).getD w.length 0 ≠ 0 := by
    rw [hraw]
    exact div_ne_zero hsum hlenQ
  rw [mkDistribution1D_cdf_pos w hfi,
    getD_map_div _ _ (j + 1) (by rw [length_rawCdf]; omega),
    getD_map_div _ _ j (by rw [length_rawCdf]; omega),
    div_sub_div_same, rawCdf_getD_succ w j hj, add_sub_cancel_left, hraw]
  field_simp

/-- C3: the `DiscretePDF` of an `InterpolatedDistribution1D` over weights `w`
is the mixture of the children's `DiscretePDF` values weighted by the cdf
differences, which are the normalised mixing weights `w[j] / sum w`. -/
theorem interp_discretePDF_mix (w : List ℚ) (children : List (ℕ → ℚ)) (idx : ℕ)
    (hsum : w.sum ≠ 0) :
    InterpolatedDistribution1D.DiscretePDF (mkInterpolatedDistribution1D w children) idx =
      ((List.range w.length).map
        (fun j => children.getD j (fun _ => 0) idx * (w.getD j 0 / w.sum))).sum := by
  simp only [InterpolatedDistribution1D.DiscretePDF, mkInterpolatedDistribution1D,
    mkDistribution1D_func]
  congr 1
  apply List.map_congr_left
  intro j hj
  rw [mkDistribution1D_cdf_diff w hsum j (List.mem_range.mp hj)]

theorem discretePDF_eval (f : List ℚ) (hsne : f.sum ≠ 0) (k : ℕ) :
    Distribution1D.DiscretePDF (mkDistribution1D f) k = f.getD k 0 / f.sum := by
  have hn : f.length ≠ 0 := by
    intro h0
    apply hsne
    rw [List.eq_nil_of_length_eq_zero h0]
    rfl
  have hlenQ : ((f.length : ℚ)) ≠ 0 := Nat.cast_ne_zero.mpr hn
  rw [Distribution1D.DiscretePDF, Distribution1D.Count, mkDistribution1D_func,
    mkDistribution1D_funcInt, rawCdf_last]
  field_simp

/-- Witness for C3 at the spec's S5 inputs: two children with pdfs built from
`[1,0,0]` and `[0,0,1]` and weights `[1/4, 3/4]` give the mixture pdf
values 1/4, 0 and 3/4 at indices 0, 1, 2. -/
theorem interp_discretePDF_mix_witness :
    InterpolatedDistribution1D.DiscretePDF
        (mkInterpolatedDistribution1D [1 / 4, 3 / 4]
          [Distribution1D.DiscretePDF (mkDistribution1D [1, 0, 0]),
            Distribution1D.DiscretePDF (mkDistribution1D [0, 0, 1])]) 0 = 1 / 4 ∧
    InterpolatedDistribution1D.DiscretePDF
        (mkInterpolatedDistribution1D [1 / 4, 3 / 4]
          [Distribution1D.DiscretePDF (mkDistribution1D [1, 0, 0]),
            Distribution1D.DiscretePDF (mkDistribution1D [0, 0, 1])]) 1 = 0 ∧
    InterpolatedDistribution1D.DiscretePDF
        (mkInterpolatedDistribution1D [1 / 4, 3 / 4]
          [Distribution1D.DiscretePDF (mkDistribution1D [1, 0, 0]),
            Distribution1D.DiscretePDF (mkDistribution1D [0, 0, 1])]) 2 = 3 / 4 := by
  have hA : ∀ k, Distribution1D.DiscretePDF (mkDistribution1D [(1 : ℚ), 0, 0]) k =
      [(1 : ℚ), 0, 0].getD k 0 / 1 := by
    intro k
    rw [discretePDF_eval [1, 0, 0] (by norm_num) k]
    norm_num
  have hB : ∀ k, Distribution1D.DiscretePDF (mkDistribution1D [(0 : ℚ), 0, 1]) k =
      [(0 : ℚ), 0, 1].getD k 0 / 1 := by
    intro k
    rw [discretePDF_eval [0, 0, 1] (by norm_num) k]
    norm_num
  refine ⟨?_, ?_, ?_⟩ <;>
    rw [interp_discretePDF_mix _ _ _ (by norm_num)] <;>
    norm_num [hA, hB, List.range_succ]

/-- C5 counterexample: a leaf cluster with exactly `photonThreshold`
intersecting photons is dropped.  With `photonThreshold = 1`, a cluster of one
intersecting photon (at least the threshold, so the claim says it is kept)
yields no stored entry because the code keeps a cluster only when
`numPhotons > photonThreshold` holds strictly. -/
theorem buildCluster_threshold_counterexample :
    ((clusterHits [⟨0, 0, 0, 1, 0⟩] : List Photon).length : ℤ) ≥ 1 ∧
      buildClusterEntry [⟨0, 0, 0, 1, 0⟩] 1 (1 / 1000) 1 = none := by
  constructor
  · decide
  · rfl

/-- C5 (amended): in `buildCluster`, a leaf cluster is dropped exactly when it
contains at most `photonThreshold` intersecting photons; every cluster with
strictly more than `photonThreshold` intersecting photons is kept and stored
with its centroid (the averaged photon positions), its sparse distribution
over the accumulated per-light contributions and its photon-count weight. -/
theorem buildCluster_keep_iff (cluster : List Photon) (t : ℤ) (ms : ℚ) (nL : ℕ) :
    (buildClusterEntry cluster t ms nL = none ↔ ((clusterHits cluster).length : ℤ) ≤ t) ∧
    (((clusterHits cluster).length : ℤ) > t →
      buildClusterEntry cluster t ms nL = some
        { x := ((clusterHits cluster).map Photon.x).sum / ((clusterHits cluster).length : ℚ)
          y := ((clusterHits cluster).map Photon.y).sum / ((clusterHits cluster).length : ℚ)
          z := ((clusterHits cluster).map Photon.z).sum / ((clusterHits cluster).length : ℚ)
          distr := mkSparseDistribution1D
            ((clusterHits cluster).foldl (fun m p => addContrib m p.lightNum p.beta) [])
            ms nL
          weight := (clusterHits cluster).length }) := by
  unfold buildClusterEntry
  by_cases h : (((clusterHits cluster).length : ℤ)) > t
  · rw [if_pos h]
    exact ⟨⟨fun hx => absurd hx (by simp), fun hx => absurd h (by omega)⟩, fun _ => rfl⟩
  · rw [if_neg h]
    exact ⟨⟨fun _ => by omega, fun _ => rfl⟩, fun hx => absurd hx h⟩

/-- Witness for C5: a cluster of two intersecting photons with threshold 1 is
kept, with centroid (1/2, 1/2, 1/2), the sparse distribution over the
accumulated contributions and weight 2. -/
theorem buildCluster_keep_iff_witness :
    buildClusterEntry [⟨0, 0, 0, 1, 0⟩, ⟨1, 1, 1, 2, 0⟩] 1 (1 / 1000) 1 = some
      { x := ((clusterHits [⟨0, 0, 0, 1, 0⟩, ⟨1, 1, 1, 2, 0⟩]).map Photon.x).sum /
          ((clusterHits [⟨0, 0, 0, 1, 0⟩, ⟨1, 1, 1, 2, 0⟩]).length : ℚ)
        y := ((clusterHits [⟨0, 0, 0, 1, 0⟩, ⟨1, 1, 1, 2, 0⟩]).map Photon.y).sum /
          ((clusterHits [⟨0, 0, 0, 1, 0⟩, ⟨1, 1, 1, 2, 0⟩]).length : ℚ)
        z := ((clusterHits [⟨0, 0, 0, 1, 0⟩, ⟨1, 1, 1, 2, 0⟩]).map Photon.z).sum /
          ((clusterHits [⟨0, 0, 0, 1, 0⟩, ⟨1, 1, 1, 2, 0⟩]).length : ℚ)
        distr := mkSparseDistribution1D
          ((clusterHits [⟨0, 0, 0, 1, 0⟩, ⟨1, 1, 1, 2, 0⟩]).foldl
            (fun m p => addContrib m p.lightNum p.beta) [])
          (1 / 1000) 1
        weight := (clusterHits [⟨0, 0, 0, 1, 0⟩, ⟨1, 1, 1, 2, 0⟩]).length } :=
  (buildCluster_keep_iff [⟨0, 0, 0, 1, 0⟩, ⟨1, 1, 1, 2, 0⟩] 1 (1 / 1000) 1).2 (by decide)

/-- C6: the clamp `uSub = uSub >= 1.0 ? 1.0 - FLT_MIN : uSub` does not
produce a value strictly below 1.  `FLT_MIN` is far below half an ulp of 1.0,
so the IEEE subtraction `1.0 - FLT_MIN` rounds to exactly 1.0: at a computed
`uSub` of 1 the clamp returns 1, not the largest representable value strictly
less than 1 as the spec claims. -/
theorem clampUSub_at_one : clampUSub 1 = 1 ∧ ¬ clampUSub 1 < 1 := by
  have hfloor : ⌊(1 - fltMin) / ulpBelowOne + 1 / 2⌋ = ((2 : ℤ) ^ 53) := by
    rw [Int.floor_eq_iff]
    constructor <;> norm_num [fltMin, ulpBelowOne]
  have hone : roundNearest ulpBelowOne (1 - fltMin) = 1 := by
    rw [roundNearest, hfloor]
    norm_num [ulpBelowOne]
  constructor
  · rw [clampUSub, if_pos le_rfl, hone]
  · rw [clampUSub, if_pos le_rfl, hone]
    exact lt_irrefl 1

/-- C7: `SampleContinuous` on a `SparseDistribution1D` or an
`InterpolatedDistribution1D` always fails with the unsupported-operation
fatal assertion and never returns a value, for every input `u`. -/
theorem sampleContinuous_unsupported :
    ∀ (s : SparseDistribution1D) (d : InterpolatedDistribution1D) (u : ℚ),
      s.SampleContinuous u = Except.error "UNSUPPORTED_OPERATION" ∧
      (¬ ∃ v, s.SampleContinuous u = Except.ok v) ∧
      d.SampleContinuous u = Except.error "UNSUPPORTED_OPERATION" ∧
      (¬ ∃ v, d.SampleContinuous u = Except.ok v) := by
  intro s d u
  refine ⟨rfl, ?_, rfl, ?_⟩
  · rintro ⟨v, h⟩
    simp [SparseDistribution1D.SampleContinuous] at h
  · rintro ⟨v, h⟩
    simp [InterpolatedDistribution1D.SampleContinuous] at h

theorem mul_pow_lor_eq_add (k c b : ℕ) (hb : b < 2 ^ k) :
    ((2 ^ k * c) ||| b) = 2 ^ k * c + b := by
  apply Nat.eq_of_testBit_eq
  intro j
  rw [Nat.testBit_or, Nat.testBit_mul_pow_two_add c hb j, Nat.testBit_mul_pow_two]
  by_cases h : j < k
  · have hge : ¬ j ≥ k := by omega
    simp [h, hge]
  · have hbj : b < 2 ^ j :=
      lt_of_lt_of_le hb (Nat.pow_le_pow_right (by norm_num) (by omega))
    simp [h, Nat.testBit_lt_two_pow hbj, Nat.le_of_not_lt h]

theorem packVoxel_eq_add (ix iy iz : ℕ) (hx : ix < 2 ^ 20) (hy : iy < 2 ^ 20)
    (hz : iz < 2 ^ 20) :
    packVoxel ix iy iz = 2 ^ 40 * ix + 2 ^ 20 * iy + iz := by
  have h1 : (iy <<< 20) < 2 ^ 40 := by
    rw [Nat.shiftLeft_eq]
    calc iy * 2 ^ 20 < 2 ^ 20 * 2 ^ 20 := by
          exact Nat.mul_lt_mul_of_lt_of_le hy (le_refl _) (by norm_num)
      _ = 2 ^ 40 := by norm_num
  have e1 : ((ix <<< 40) ||| (iy <<< 20)) = 2 ^ 40 * ix + 2 ^ 20 * iy := by
    rw [Nat.shiftLeft_eq ix, mul_comm ix, mul_pow_lor_eq_add 40 ix _ h1,
      Nat.shiftLeft_eq iy, mul_comm iy]
  have e2 : (((ix <<< 40) ||| (iy <<< 20)) ||| iz) = 2 ^ 40 * ix + 2 ^ 20 * iy + iz := by
    rw [e1, show (2 : ℕ) ^ 40 * ix + 2 ^ 20 * iy = 2 ^ 20 * (2 ^ 20 * ix + iy) by ring,
      mul_pow_lor_eq_add 20 _ iz hz]
  rw [packVoxel, e2, Nat.mod_eq_of_lt]
  omega

/-- C8: for voxel coordinates each below 2 to the power 20, the packed key
`(ix shifted left 40) or (iy shifted left 20) or iz` determines the
coordinates (packing is injective on the grid), and no in-grid triple packs
to the sentinel `invalidPackedPos`. -/
theorem packVoxel_injective_in_grid (ix iy iz jx jy jz : ℕ)
    (hix : ix < 2 ^ 20) (hiy : iy < 2 ^ 20) (hiz : iz < 2 ^ 20)
    (hjx : jx < 2 ^ 20) (hjy : jy < 2 ^ 20) (hjz : jz < 2 ^ 20) :
    (packVoxel ix iy iz = packVoxel jx jy jz → ix = jx ∧ iy = jy ∧ iz = jz) ∧
    packVoxel ix iy iz ≠ invalidPackedPos := by
  rw [packVoxel_eq_add ix iy iz hix hiy hiz, packVoxel_eq_add jx jy jz hjx hjy hjz]
  unfold invalidPackedPos
  omega

/-- Witness for C8 at the concrete triples (1, 2, 3) and (1, 2, 4): the
packed key of an in-grid triple is not the sentinel. -/
theorem packVoxel_injective_in_grid_witness :
    packVoxel 1 2 3 ≠ invalidPackedPos :=
  (packVoxel_injective_in_grid 1 2 3 1 2 4 (by norm_num) (by norm_num) (by norm_num)
    (by norm_num) (by norm_num) (by norm_num)).2

/-- C9: for a `Distribution1D` whose function values are all zero, `funcInt`
is 0, the cdf is the uniform fallback `i/n`, `SampleDiscrete` selects its
index by searching that fallback cdf, yet the reported pdf is 0 rather than
`1/n` (which is nonzero). -/
theorem zeroFunc_sampleDiscrete (n : ℕ) (hn : 0 < n) (u : ℚ) (hu0 : 0 ≤ u)
    (hu1 : u < 1) :
    (mkDistribution1D (List.replicate n 0)).funcInt = 0 ∧
    (mkDistribution1D (List.replicate n 0)).cdf =
      (List.range (n + 1)).map (fun i => (i : ℚ) / (n : ℚ)) ∧
    ((mkDistribution1D (List.replicate n 0)).SampleDiscrete u).1 =
      findInterval ((List.range (n + 1)).map (fun i => (i : ℚ) / (n : ℚ))) u ∧
    ((mkDistribution1D (List.replicate n 0)).SampleDiscrete u).2 = 0 ∧
    (1 : ℚ) / (n : ℚ) ≠ 0 := by
  have hraw0 : (rawCdf (List.replicate n (0 : ℚ))).getD
      (List.replicate n (0 : ℚ)).length 0 = 0 := by
    rw [rawCdf_last]
    simp
  have hfi : (mkDistribution1D (List.replicate n (0 : ℚ))).funcInt = 0 := by
    rw [mkDistribution1D_funcInt, hraw0]
  have hcdf : (mkDistribution1D (List.replicate n (0 : ℚ))).cdf =
      (List.range (n + 1)).map (fun i => (i : ℚ) / (n : ℚ)) := by
    rw [mkDistribution1D_cdf_zero _ hraw0, List.length_replicate]
  refine ⟨hfi, hcdf, ?_, ?_, ?_⟩
  · rw [Distribution1D.SampleDiscrete, hcdf]
  · rw [Distribution1D.SampleDiscrete, hfi]
    simp
  · exact one_div_ne_zero (Nat.cast_ne_zero.mpr (by omega))

/-- Witness for C9 at `n = 2`, `u = 1/2`: the reported pdf is 0. -/
theorem zeroFunc_sampleDiscrete_witness :
    ((mkDistribution1D (List.replicate 2 0)).SampleDiscrete (1 / 2)).2 = 0 :=
  (zeroFunc_sampleDiscrete 2 (by norm_num) (1 / 2) (by norm_num) (by norm_num)).2.2.2.1

theorem axisStep_snd_sum (d : Fin 3) (a : ℚ) (nv : ℤ) (st : List ((Fin 3 → ℤ) × ℚ)) :
    ((axisStep d a nv st).map Prod.snd).sum = (st.map Prod.snd).sum := by
  unfold axisStep
  generalize (if (0 : ℚ) < a then (1 : ℤ) else -1) = s
  induction st with
  | nil => simp
  | cons p st ih =>
    simp only [List.map_cons, List.filterMap_cons, List.map_append, List.sum_append,
      List.sum_cons] at ih ⊢
    by_cases h : 0 ≤ p.1 d + s ∧ p.1 d + s < nv
    · rw [if_pos h, if_pos h]
      simp only [List.map_cons, List.sum_cons]
      have hsplit : p.2 * (1 - |a|) + p.2 * |a| = p.2 := by ring
      linarith [ih]
    · rw [if_neg h, if_neg h]
      linarith [ih]

/-- C10: the influence weights handed to the `InterpolatedDistribution1D` by
`getInterpolatedDistribution` sum exactly to 1: each axis step either splits
a weight `w` into `(1-|frac|)*w` and `|frac|*w` or leaves it unchanged. -/
theorem interpolation_influence_sum (offset : Fin 3 → ℚ) (nVoxels : Fin 3 → ℤ)
    (voxelId : Fin 3 → ℤ) :
    ((interpolationEntries offset nVoxels voxelId).map Prod.snd).sum = 1 := by
  have hstep : ∀ (st : List ((Fin 3 → ℤ) × ℚ)) (i : Fin 3),
      ((stepAxis offset nVoxels st i).map Prod.snd).sum = (st.map Prod.snd).sum := by
    intro st i
    unfold stepAxis
    by_cases h : offsetInVoxel offset nVoxels i = 0
    · rw [if_pos h]
    · rw [if_neg h]
      exact axisStep_snd_sum i _ (nVoxels i) st
  unfold interpolationEntries
  simp only [List.foldl_cons, List.foldl_nil]
  rw [hstep, hstep, hstep]
  simp

/-- Witness for C1 at the concrete input `f = [1, 2]`: the hypotheses hold and
the normalised cdf ends at 1. -/
theorem distribution1D_cdf_construction_witness :
    (mkDistribution1D [1, 2]).cdf.getD 2 0 = 1 := by
  have h1 : (0 : ℚ) < (mkDistribution1D [1, 2]).funcInt := by
    rw [mkDistribution1D_funcInt]
    norm_num [rawCdf, List.scanl]
  have h2 : ∀ x ∈ ([1, 2] : List ℚ), 0 ≤ x := by
    intro x hx
    simp only [List.mem_cons, List.not_mem_nil, or_false] at hx
    rcases hx with rfl | rfl <;> norm_num
  exact ((distribution1D_cdf_construction [1, 2] (by simp) h2).2.2.2.2.2 h1).2.1

end PbrtSpec
